import Mathlib

set_option linter.unusedSectionVars false

/-!
Shallow embedding of `src/src/factory.ts` (kevmul/object-factory).

A JS object is modelled as an association list of key/value pairs
(`Obj K V`); `Object.assign(target, src)` is `objAssign`, which replaces
existing keys in place and appends new keys at the end, exactly as the
JS semantics does for plain data objects.

A thrown JS value is `JSThrown`: either an `Error` carrying a message,
or a non-`Error` value rendered by `String(...)` (the
`error instanceof Error ? error.message : String(error)` branch in
`make`'s catch clause).

The mutable `Factory` instance is a structure holding the blueprint
(`definition`, indexed by the invocation number so that each produced
instance corresponds to its own blueprint call), the registered
`stateCallbacks` and the pending `instances` count.  Every method of the
class becomes a function from the factory value to a pair of the
post-call factory state and an `Except` result; on the throwing paths of
the source no field of `this` has been assigned when the exception
leaves the method, which the embedding reflects by returning the input
state unchanged there.
-/

inductive JSThrown where
  | jsError (msg : String)
  | jsValue (str : String)
deriving DecidableEq

/-- The string the catch clause in `make` extracts from a thrown value:
`error instanceof Error ? error.message : String(error)`. -/
def JSThrown.messageOf : JSThrown → String
  | .jsError m => m
  | .jsValue s => s

/-- A plain JS data object: an ordered association list of fields. -/
abbrev Obj (K V : Type) := List (K × V)

variable {K V : Type} [DecidableEq K]

/-- Property lookup `o[k]` (first matching field; a well-formed JS object
has distinct keys, so the first match is the field). -/
def getKey : Obj K V → K → Option V
  | [], _ => none
  | (k2, v) :: rest, k => if k2 = k then some v else getKey rest k

/-- Membership test for a key: `k in o`. -/
def hasKey (o : Obj K V) (k : K) : Bool :=
  (getKey o k).isSome

/-- Property assignment `o[k] = v`: replace the value of an existing key
in place, otherwise append the new field at the end. -/
def setKey (o : Obj K V) (k : K) (v : V) : Obj K V :=
  if hasKey o k then
    o.map (fun p => if p.1 = k then (k, v) else p)
  else
    o ++ [(k, v)]

/-- Merge `Object.assign(target, src)`: copy every field of `src` into
`target`, in order. -/
def objAssign (target src : Obj K V) : Obj K V :=
  src.foldl (fun acc p => setKey acc p.1 p.2) target

/-- The builder.  `definition` is the abstract blueprint supplied by the
subclass, indexed by how many times it has been invoked during the
current `make` call (its results need not be equal across calls and it
may throw).  `stateCallbacks` and `instances` are the two private
mutable fields of the class, with their source initial values supplied
by `mkFactory` below. -/
structure Factory (K V : Type) where
  definition : Nat → Except JSThrown (Obj K V)
  stateCallbacks : List (Obj K V → Except JSThrown (Obj K V))
  instances : Int

/-- A freshly constructed subclass instance: `stateCallbacks = []`,
`instances = 1`. -/
def mkFactory (d : Nat → Except JSThrown (Obj K V)) : Factory K V :=
  { definition := d, stateCallbacks := [], instances := 1 }

/-- Method `count(amount)`: throw `Count must be greater than 0` when
`amount < 1` (before any mutation), otherwise set `this.instances` and
return `this`.  The first component is the post-call state, the second
the returned value (the builder itself). -/
def Factory.count (f : Factory K V) (amount : Int) :
    Factory K V × Except JSThrown (Factory K V) :=
  if amount < 1 then
    (f, .error (.jsError ("Count must be greater than 0")))
  else
    ({ f with instances := amount }, .ok { f with instances := amount })

/-- Method `state(callback)`: push the callback and return `this`. -/
def Factory.state (f : Factory K V)
    (cb : Obj K V → Except JSThrown (Obj K V)) : Factory K V :=
  { f with stateCallbacks := f.stateCallbacks ++ [cb] }

/-- Chain `stateCallbacks.reduce((acc, callback) => callback(acc), model)`,
with a throw from any callback aborting the chain. -/
def runCallbacks (cbs : List (Obj K V → Except JSThrown (Obj K V)))
    (m : Obj K V) : Except JSThrown (Obj K V) :=
  match cbs with
  | [] => .ok m
  | cb :: rest =>
    match cb m with
    | .error e => .error e
    | .ok m2 => runCallbacks rest m2

/-- The `for (let i = 0; i < this.instances; i++)` body of `make`:
produce `n` models starting at blueprint invocation `start`; each one is
the blueprint output with `overrides` assigned onto it, run through the
callback chain.  A throw anywhere discards the partial output. -/
def makeLoop (d : Nat → Except JSThrown (Obj K V))
    (cbs : List (Obj K V → Except JSThrown (Obj K V)))
    (overrides : Obj K V) : Nat → Nat → Except JSThrown (List (Obj K V))
  | _, 0 => .ok []
  | start, Nat.succ n =>
    match d start with
    | .error e => .error e
    | .ok b =>
      match runCallbacks cbs (objAssign b overrides) with
      | .error e => .error e
      | .ok m =>
        match makeLoop d cbs overrides (start + 1) n with
        | .error e => .error e
        | .ok rest => .ok (m :: rest)

/-- Method `make(overrides)`: run the loop; on success reset the two fields and
return the array, on a throw wrap the message in
`Failed to make model: ...` and re-raise, leaving both fields exactly
as they were (the reset statements sit after the loop inside the `try`,
so they are skipped on the error path). -/
def Factory.make (f : Factory K V) (overrides : Obj K V) :
    Factory K V × Except JSThrown (List (Obj K V)) :=
  match makeLoop f.definition f.stateCallbacks overrides 0 f.instances.toNat with
  | .ok out => ({ f with stateCallbacks := [], instances := 1 }, .ok out)
  | .error e =>
    (f, .error (.jsError ("Failed to make model: " ++ e.messageOf)))

/-- Method `makeOne(overrides)`: `this.make(overrides)[0]`; indexing an empty
array yields `undefined`, modelled by `Option`. -/
def Factory.makeOne (f : Factory K V) (overrides : Obj K V) :
    Factory K V × Except JSThrown (Option (Obj K V)) :=
  match f.make overrides with
  | (f2, .ok out) => (f2, .ok out.head?)
  | (f2, .error e) => (f2, .error e)

/-- Method `create(_overrides)`: unconditionally throw
`Must implement the DB layer to use Create.`; nothing is read or
written before the throw. -/
def Factory.create (f : Factory K V) (_overrides : Obj K V) :
    Factory K V × Except JSThrown (List (Obj K V)) :=
  (f, .error (.jsError ("Must implement the DB layer to use Create.")))

/-- Method `createOne(overrides)`: `this.create(overrides)[0]`. -/
def Factory.createOne (f : Factory K V) (overrides : Obj K V) :
    Factory K V × Except JSThrown (Option (Obj K V)) :=
  match f.create overrides with
  | (f2, .ok out) => (f2, .ok out.head?)
  | (f2, .error e) => (f2, .error e)

/-- A pure (never-throwing) state transform, as the spec's
`Model → Model` callbacks. -/
def pureCb (t : Obj K V → Obj K V) : Obj K V → Except JSThrown (Obj K V) :=
  fun m => .ok (t m)

/-- Register a list of pure transforms by successive `state(...)` calls,
in list order. -/
def Factory.stateMany (f : Factory K V)
    (ts : List (Obj K V → Obj K V)) : Factory K V :=
  ts.foldl (fun g t => g.state (pureCb t)) f

/-- The builder states reachable through the public API: construction of
a subclass instance, then any sequence of `count`, `state`, `make`,
`makeOne`, `create`, `createOne` calls, following each call's post-state
whether it returned or threw. -/
inductive Reachable : Factory K V → Prop where
  | init (d : Nat → Except JSThrown (Obj K V)) : Reachable (mkFactory d)
  | count (f : Factory K V) (a : Int) :
      Reachable f → Reachable (f.count a).1
  | state (f : Factory K V) (cb : Obj K V → Except JSThrown (Obj K V)) :
      Reachable f → Reachable (f.state cb)
  | make (f : Factory K V) (o : Obj K V) :
      Reachable f → Reachable (f.make o).1
  | makeOne (f : Factory K V) (o : Obj K V) :
      Reachable f → Reachable (f.makeOne o).1
  | create (f : Factory K V) (o : Obj K V) :
      Reachable f → Reachable (f.create o).1
  | createOne (f : Factory K V) (o : Obj K V) :
      Reachable f → Reachable (f.createOne o).1

/-!
### A small reference heap

JS objects are mutable values behind references, and
`Object.assign(target, src)` writes into the object `target` points to.
The merge step of `make` builds its target from a fresh blueprint
invocation and passes the caller's `overrides` object as the source, so
the caller's object must come back untouched.  `Heap` makes that
observable: references are indices into a list of objects, `alloc`
models the fresh object the blueprint returns, and `mergeStep` is the
`Object.assign(this.definition() as Model, overrides)` expression of
line 53.
-/

/-- Update the object at index `r`, leaving every other slot alone. -/
def writeAt : List (Obj K V) → Nat → (Obj K V → Obj K V) → List (Obj K V)
  | [], _, _ => []
  | ob :: rest, 0, g => g ob :: rest
  | ob :: rest, Nat.succ r, g => ob :: writeAt rest r g

/-- A store of JS objects; a reference is an index into `objs`. -/
structure Heap (K V : Type) where
  objs : List (Obj K V)

/-- Dereference. -/
def Heap.readRef (h : Heap K V) (r : Nat) : Option (Obj K V) :=
  h.objs.get? r

/-- A fresh object, at a reference no existing reference equals. -/
def Heap.alloc (h : Heap K V) (ob : Obj K V) : Heap K V × Nat :=
  (⟨h.objs ++ [ob]⟩, h.objs.length)

/-- The property write `target[k] = v`. -/
def Heap.writeField (h : Heap K V) (r : Nat) (k : K) (v : V) : Heap K V :=
  ⟨writeAt h.objs r (fun ob => setKey ob k v)⟩

/-- Merge `Object.assign(target, src)` on the heap: copy every field of the
object `src` points to into the object `target` points to. -/
def Heap.assignFrom (h : Heap K V) (target src : Nat) : Heap K V :=
  match h.readRef src with
  | none => h
  | some so => so.foldl (fun acc p => acc.writeField target p.1 p.2) h

/-- The merge step of `make`: allocate the blueprint's fresh output `b`,
then assign the caller's overrides object (at `ovRef`) onto it.  Returns
the new heap and the reference to the merged model. -/
def mergeStep (h : Heap K V) (b : Obj K V) (ovRef : Nat) : Heap K V × Nat :=
  ((h.alloc b).1.assignFrom (h.alloc b).2 ovRef, (h.alloc b).2)

/-!
### Concrete instances used to evaluate the theorems

A blueprint over `Nat` keys and values, as in the repository's test
factory: `exDefn` is a total blueprint, `exThrowDefn` a throwing one,
`exThrowCb` a throwing state callback, `exT1`/`exT2` two pure
non-commuting transforms.
-/

def exDefn : Nat → Except JSThrown (Obj Nat Nat) :=
  fun _ => .ok [(0, 0)]

def exThrowDefn : Nat → Except JSThrown (Obj Nat Nat) :=
  fun _ => .error (.jsError ("boom"))

def exThrowCb : Obj Nat Nat → Except JSThrown (Obj Nat Nat) :=
  fun _ => .error (.jsError ("boom"))

def exT1 : Obj Nat Nat → Obj Nat Nat :=
  fun m => setKey m 1 10

def exT2 : Obj Nat Nat → Obj Nat Nat :=
  fun m => setKey m 1 20

def exHeap : Heap Nat Nat :=
  ⟨[[(1, 2)]]⟩

/-! ### Lemmas about object merging -/

theorem getKey_eq_none_of_not_mem {o : Obj K V} {k : K}
    (h : k ∉ o.map Prod.fst) : getKey o k = none := by
  induction o with
  | nil => rfl
  | cons p rest ih =>
    simp only [List.map_cons, List.mem_cons] at h
    push_neg at h
    simp only [getKey]
    rw [if_neg (fun hk => h.1 hk.symm)]
    exact ih h.2

theorem hasKey_eq_false_iff {o : Obj K V} {k : K} :
    hasKey o k = false ↔ getKey o k = none := by
  unfold hasKey
  cases getKey o k <;> simp

theorem getKey_map_set_self {o : Obj K V} {k : K} {v : V}
    (h : hasKey o k = true) :
    getKey (o.map (fun p => if p.1 = k then (k, v) else p)) k = some v := by
  induction o with
  | nil => simp [hasKey, getKey] at h
  | cons p rest ih =>
    simp only [List.map_cons]
    by_cases hk : p.1 = k
    · rw [if_pos hk]
      simp [getKey]
    · rw [if_neg hk]
      have h2 : hasKey rest k = true := by
        simpa [hasKey, getKey, hk] using h
      simp only [getKey]
      rw [if_neg hk]
      exact ih h2

theorem getKey_map_set_ne {o : Obj K V} {k k2 : K} {v : V}
    (h : k2 ≠ k) :
    getKey (o.map (fun p => if p.1 = k then (k, v) else p)) k2 =
      getKey o k2 := by
  induction o with
  | nil => rfl
  | cons p rest ih =>
    simp only [List.map_cons]
    by_cases hk : p.1 = k
    · rw [if_pos hk]
      have hne : ¬ k = k2 := fun hc => h hc.symm
      have hne2 : ¬ p.1 = k2 := by rw [hk]; exact hne
      simp only [getKey]
      rw [if_neg hne, if_neg hne2]
      exact ih
    · rw [if_neg hk]
      simp only [getKey]
      by_cases hp : p.1 = k2
      · rw [if_pos hp, if_pos hp]
      · rw [if_neg hp, if_neg hp]
        exact ih

theorem getKey_append (o1 o2 : Obj K V) (k : K) :
    getKey (o1 ++ o2) k =
      match getKey o1 k with
      | some v => some v
      | none => getKey o2 k := by
  induction o1 with
  | nil => rfl
  | cons p rest ih =>
    by_cases hk : p.1 = k
    · simp [getKey, hk]
    · simp [getKey, hk, ih]

theorem getKey_setKey_self (o : Obj K V) (k : K) (v : V) :
    getKey (setKey o k v) k = some v := by
  unfold setKey
  by_cases h : hasKey o k
  · rw [if_pos h]
    exact getKey_map_set_self h
  · rw [if_neg h]
    rw [getKey_append]
    rw [hasKey_eq_false_iff.mp (Bool.eq_false_iff.mpr h)]
    simp [getKey]

theorem getKey_setKey_ne (o : Obj K V) {k k2 : K} (v : V) (h : k2 ≠ k) :
    getKey (setKey o k v) k2 = getKey o k2 := by
  unfold setKey
  by_cases hh : hasKey o k
  · rw [if_pos hh]
    exact getKey_map_set_ne h
  · rw [if_neg hh]
    rw [getKey_append]
    cases hg : getKey o k2 with
    | some v2 => rfl
    | none =>
      simp only [getKey]
      rw [if_neg (fun hc : k = k2 => h hc.symm)]

/-- Lookup after `Object.assign`: keys of the source win, all other keys
keep the target's value.  The source is a well-formed object (distinct
keys). -/
theorem getKey_objAssign (t : Obj K V) {s : Obj K V} (k : K)
    (hs : (s.map Prod.fst).Nodup) :
    getKey (objAssign t s) k =
      match getKey s k with
      | some v => some v
      | none => getKey t k := by
  induction s generalizing t with
  | nil => rfl
  | cons p rest ih =>
    simp only [List.map_cons, List.nodup_cons] at hs
    have step : objAssign t (p :: rest) = objAssign (setKey t p.1 p.2) rest := by
      simp [objAssign]
    rw [step]
    by_cases hk : p.1 = k
    · have hnone : getKey rest k = none := by
        apply getKey_eq_none_of_not_mem
        rw [← hk]
        exact hs.1
      rw [ih _ hs.2]
      rw [hnone]
      simp only [getKey, if_pos hk]
      rw [← hk]
      exact getKey_setKey_self t p.1 p.2
    · rw [ih _ hs.2]
      simp only [getKey, if_neg hk]
      cases hg : getKey rest k with
      | some v => rfl
      | none => exact getKey_setKey_ne t _ (fun hc => hk hc.symm)

/-! ### Lemmas about the callback chain and the production loop -/

theorem runCallbacks_total {cbs : List (Obj K V → Except JSThrown (Obj K V))}
    (hc : ∀ cb ∈ cbs, ∀ m, ∃ m2, cb m = .ok m2) :
    ∀ m, ∃ m2, runCallbacks cbs m = .ok m2 := by
  induction cbs with
  | nil => exact fun m => ⟨m, rfl⟩
  | cons cb rest ih =>
    intro m
    obtain ⟨m1, h1⟩ := hc cb (List.mem_cons_self cb rest) m
    obtain ⟨m2, h2⟩ := ih (fun c hcm => hc c (List.mem_cons_of_mem cb hcm)) m1
    exact ⟨m2, by simp [runCallbacks, h1, h2]⟩

theorem runCallbacks_pure (ts : List (Obj K V → Obj K V)) :
    ∀ m, runCallbacks (ts.map pureCb) m =
      .ok (ts.foldl (fun a t => t a) m) := by
  induction ts with
  | nil => exact fun m => rfl
  | cons t rest ih =>
    intro m
    simp only [List.map_cons, List.foldl_cons, runCallbacks, pureCb]
    exact ih (t m)

/-- Characterisation of a successful loop run: it yields one model per
iteration, and the `i`-th one is the `i`-th blueprint output with the
overrides assigned and the callback chain applied. -/
theorem makeLoop_ok {d : Nat → Except JSThrown (Obj K V)}
    {cbs : List (Obj K V → Except JSThrown (Obj K V))} {o : Obj K V} :
    ∀ {n start : Nat} {ms : List (Obj K V)},
      makeLoop d cbs o start n = .ok ms →
      ms.length = n ∧
      ∀ i, i < n → ∃ b m, d (start + i) = .ok b ∧
        runCallbacks cbs (objAssign b o) = .ok m ∧ ms.get? i = some m := by
  intro n
  induction n with
  | zero =>
    intro start ms h
    simp only [makeLoop] at h
    cases h
    exact ⟨rfl, fun i hi => absurd hi (Nat.not_lt_zero i)⟩
  | succ n ih =>
    intro start ms h
    simp only [makeLoop] at h
    cases hd : d start with
    | error e => simp only [hd] at h; exact Except.noConfusion h
    | ok b =>
      simp only [hd] at h
      cases hr : runCallbacks cbs (objAssign b o) with
      | error e => simp only [hr] at h; exact Except.noConfusion h
      | ok m =>
        simp only [hr] at h
        cases hl : makeLoop d cbs o (start + 1) n with
        | error e => simp only [hl] at h; exact Except.noConfusion h
        | ok rest =>
          simp only [hl] at h
          cases h
          obtain ⟨hlen, hidx⟩ := ih hl
          refine ⟨by simp [hlen], ?_⟩
          intro i hi
          cases i with
          | zero => exact ⟨b, m, by simpa using hd, hr, rfl⟩
          | succ j =>
            obtain ⟨b2, m2, h1, h2, h3⟩ := hidx j (Nat.lt_of_succ_lt_succ hi)
            refine ⟨b2, m2, ?_, h2, ?_⟩
            · have hadd : start + 1 + j = start + (j + 1) := by omega
              rwa [hadd] at h1
            · simpa using h3

/-- When the blueprint and every callback are total, the loop succeeds. -/
theorem makeLoop_total {d : Nat → Except JSThrown (Obj K V)}
    {cbs : List (Obj K V → Except JSThrown (Obj K V))} {o : Obj K V}
    (hd : ∀ i, ∃ b, d i = .ok b)
    (hc : ∀ m, ∃ m2, runCallbacks cbs m = .ok m2) :
    ∀ n start, ∃ ms, makeLoop d cbs o start n = .ok ms := by
  intro n
  induction n with
  | zero => exact fun start => ⟨[], rfl⟩
  | succ n ih =>
    intro start
    obtain ⟨b, hb⟩ := hd start
    obtain ⟨m, hm⟩ := hc (objAssign b o)
    obtain ⟨rest, hrest⟩ := ih (start + 1)
    exact ⟨m :: rest, by simp [makeLoop, hb, hm, hrest]⟩

/-! ### Lemmas about `make`, `makeOne` and `stateMany` -/

theorem make_eq_of_loop_ok {f : Factory K V} {o : Obj K V}
    {ms : List (Obj K V)}
    (h : makeLoop f.definition f.stateCallbacks o 0 f.instances.toNat = .ok ms) :
    f.make o = ({ f with stateCallbacks := [], instances := 1 }, .ok ms) := by
  simp [Factory.make, h]

theorem make_eq_of_loop_error {f : Factory K V} {o : Obj K V} {e : JSThrown}
    (h : makeLoop f.definition f.stateCallbacks o 0 f.instances.toNat = .error e) :
    f.make o =
      (f, .error (.jsError ("Failed to make model: " ++ e.messageOf))) := by
  simp [Factory.make, h]

theorem make_ok_loop {f f2 : Factory K V} {o : Obj K V} {ms : List (Obj K V)}
    (h : f.make o = (f2, .ok ms)) :
    makeLoop f.definition f.stateCallbacks o 0 f.instances.toNat = .ok ms ∧
    f2 = { f with stateCallbacks := [], instances := 1 } := by
  unfold Factory.make at h
  cases hl : makeLoop f.definition f.stateCallbacks o 0 f.instances.toNat with
  | ok out =>
    simp only [hl, Prod.mk.injEq] at h
    obtain ⟨h1, h2⟩ := h
    cases h2
    exact ⟨rfl, h1.symm⟩
  | error e =>
    simp only [hl, Prod.mk.injEq] at h
    exact Except.noConfusion h.2

/-- Delegation: `makeOne` is `make` followed by taking element 0; post-state and
error behaviour are those of `make`. -/
theorem makeOne_eq (f : Factory K V) (o : Obj K V) :
    f.makeOne o = ((f.make o).1, Except.map List.head? (f.make o).2) := by
  unfold Factory.makeOne
  cases hm : f.make o with
  | mk f2 r =>
    cases r with
    | ok out => rfl
    | error e => rfl

theorem stateMany_spec (f : Factory K V) (ts : List (Obj K V → Obj K V)) :
    (f.stateMany ts).definition = f.definition ∧
    (f.stateMany ts).instances = f.instances ∧
    (f.stateMany ts).stateCallbacks = f.stateCallbacks ++ ts.map pureCb := by
  induction ts generalizing f with
  | nil => simp [Factory.stateMany]
  | cons t rest ih =>
    have step : f.stateMany (t :: rest) = (f.state (pureCb t)).stateMany rest := by
      simp [Factory.stateMany]
    rw [step]
    obtain ⟨h1, h2, h3⟩ := ih (f.state (pureCb t))
    refine ⟨h1, h2, ?_⟩
    rw [h3]
    simp [Factory.state]

/-! ### Reachability invariant -/

theorem make_post_instances {f : Factory K V} (o : Obj K V)
    (h : 1 ≤ f.instances) : 1 ≤ (f.make o).1.instances := by
  cases hl : makeLoop f.definition f.stateCallbacks o 0 f.instances.toNat with
  | ok out => simp [make_eq_of_loop_ok hl]
  | error e =>
    rw [make_eq_of_loop_error hl]
    exact h

theorem reachable_instances {f : Factory K V} (h : Reachable f) :
    1 ≤ f.instances := by
  induction h with
  | init d => exact le_refl 1
  | count f a hf ih =>
    by_cases ha : a < 1
    · simp only [Factory.count, if_pos ha]
      exact ih
    · simp only [Factory.count, if_neg ha]
      omega
  | state f cb hf ih => exact ih
  | make f o hf ih => exact make_post_instances o ih
  | makeOne f o hf ih =>
    rw [makeOne_eq]
    exact make_post_instances o ih
  | create f o hf ih => exact ih
  | createOne f o hf ih => exact ih

/-! ### Lemmas about the heap -/

theorem get_writeAt_ne (l : List (Obj K V)) (g : Obj K V → Obj K V) :
    ∀ {r r2 : Nat}, r2 ≠ r → (writeAt l r g).get? r2 = l.get? r2 := by
  induction l with
  | nil => intro r r2 _; rfl
  | cons ob rest ih =>
    intro r r2 hne
    cases r with
    | zero =>
      cases r2 with
      | zero => exact absurd rfl hne
      | succ j => simp [writeAt]
    | succ r3 =>
      cases r2 with
      | zero => simp [writeAt]
      | succ j =>
        simp only [writeAt, List.get?_cons_succ]
        exact ih (fun hc => hne (congrArg Nat.succ hc))

theorem get_writeAt_self (l : List (Obj K V)) (g : Obj K V → Obj K V) :
    ∀ r : Nat, (writeAt l r g).get? r = (l.get? r).map g := by
  induction l with
  | nil => intro r; cases r <;> rfl
  | cons ob rest ih =>
    intro r
    cases r with
    | zero => rfl
    | succ r3 =>
      simp only [writeAt, List.get?_cons_succ]
      exact ih r3

theorem readRef_writeField_ne (h : Heap K V) {r r2 : Nat} (k : K) (v : V)
    (hne : r2 ≠ r) : (h.writeField r k v).readRef r2 = h.readRef r2 :=
  get_writeAt_ne h.objs _ hne

theorem readRef_writeField_self (h : Heap K V) (r : Nat) (k : K) (v : V) :
    (h.writeField r k v).readRef r =
      (h.readRef r).map (fun ob => setKey ob k v) :=
  get_writeAt_self h.objs _ r

theorem readRef_foldWrite_ne (so : Obj K V) :
    ∀ (h : Heap K V) {target r : Nat}, r ≠ target →
      (so.foldl (fun acc p => acc.writeField target p.1 p.2) h).readRef r =
        h.readRef r := by
  induction so with
  | nil => intro h target r _; rfl
  | cons p rest ih =>
    intro h target r hne
    simp only [List.foldl_cons]
    rw [ih _ hne]
    exact readRef_writeField_ne h p.1 p.2 hne

theorem readRef_foldWrite_self (so : Obj K V) :
    ∀ (h : Heap K V) (target : Nat),
      (so.foldl (fun acc p => acc.writeField target p.1 p.2) h).readRef target =
        (h.readRef target).map (fun t => objAssign t so) := by
  induction so with
  | nil =>
    intro h target
    simp only [List.foldl_nil]
    cases hr : h.readRef target <;> rfl
  | cons p rest ih =>
    intro h target
    simp only [List.foldl_cons]
    rw [ih]
    rw [readRef_writeField_self]
    cases hr : h.readRef target <;> rfl

theorem readRef_alloc_old (h : Heap K V) (ob : Obj K V) {r : Nat}
    (hr : r < h.objs.length) : (h.alloc ob).1.readRef r = h.readRef r := by
  unfold Heap.alloc Heap.readRef
  exact List.get?_append hr

theorem readRef_alloc_new (h : Heap K V) (ob : Obj K V) :
    (h.alloc ob).1.readRef (h.alloc ob).2 = some ob := by
  unfold Heap.alloc Heap.readRef
  exact List.get?_concat_length h.objs ob

/-! ### The claims -/

/-- Claim C1 as stated is false on the code: the reset of
`stateCallbacks`/`instances` sits after the production loop inside the
`try`, so when a state transform throws during the loop the catch clause
re-raises without resetting.  Concretely, after `count(2)` and
registering a throwing callback, the failed `make` leaves
`instances = 2` (and the callback still registered). -/
theorem C1_counterexample :
    ¬ (((((mkFactory exDefn).count 2).1.state exThrowCb).make
          ([] : Obj Nat Nat)).1.stateCallbacks = [] ∧
       ((((mkFactory exDefn).count 2).1.state exThrowCb).make
          ([] : Obj Nat Nat)).1.instances = 1) := by
  intro hc
  have h2 : ((((mkFactory exDefn).count 2).1.state exThrowCb).make
      ([] : Obj Nat Nat)).1.instances = 2 := rfl
  rw [hc.2] at h2
  exact absurd h2 (by decide)

/-- Claim C1 (amended): after a `make`/`makeOne` call that returns
normally, the pending transform list is empty and the pending count is
1; when the blueprint or a state transform throws, the wrapped error
propagates with both fields left exactly as they were before the call
(no reset runs on the error path). -/
theorem C1_theorem (f : Factory K V) (o : Obj K V) :
    (∀ ms, (f.make o).2 = .ok ms →
      (f.make o).1.stateCallbacks = [] ∧ (f.make o).1.instances = 1) ∧
    (∀ e, (f.make o).2 = .error e → (f.make o).1 = f) ∧
    (∀ r, (f.makeOne o).2 = .ok r →
      (f.makeOne o).1.stateCallbacks = [] ∧ (f.makeOne o).1.instances = 1) ∧
    (∀ e, (f.makeOne o).2 = .error e → (f.makeOne o).1 = f) := by
  cases hl : makeLoop f.definition f.stateCallbacks o 0 f.instances.toNat with
  | ok out =>
    have hm := make_eq_of_loop_ok hl
    rw [makeOne_eq, hm]
    simp [Except.map]
  | error e =>
    have hm := make_eq_of_loop_error hl
    rw [makeOne_eq, hm]
    simp [Except.map]

/-- Evaluation of the amended C1 on a concrete successful call. -/
theorem C1_witness :
    ((mkFactory exDefn).make ([] : Obj Nat Nat)).1.stateCallbacks = [] ∧
    ((mkFactory exDefn).make ([] : Obj Nat Nat)).1.instances = 1 :=
  (C1_theorem (mkFactory exDefn) []).1 [[(0, 0)]] rfl

/-- Claim C2: with no registered transforms, every model a successful
`make O` produces is the shallow merge of the corresponding fresh
blueprint output with `O`: every key of `O` carries `O`'s value and
every other key carries the blueprint's value. -/
theorem C2_theorem (f f2 : Factory K V) (o : Obj K V) (ms : List (Obj K V))
    (hcb : f.stateCallbacks = [])
    (hnd : (o.map Prod.fst).Nodup)
    (hmk : f.make o = (f2, .ok ms)) :
    ∀ i, i < ms.length → ∃ b, f.definition i = .ok b ∧
      ms.get? i = some (objAssign b o) ∧
      (∀ k v, getKey o k = some v → getKey (objAssign b o) k = some v) ∧
      (∀ k, getKey o k = none → getKey (objAssign b o) k = getKey b k) := by
  obtain ⟨hl, hf2⟩ := make_ok_loop hmk
  obtain ⟨hlen, hidx⟩ := makeLoop_ok hl
  intro i hi
  rw [hlen] at hi
  obtain ⟨b, m, hb, hr, hm⟩ := hidx i hi
  rw [hcb] at hr
  have hmm : m = objAssign b o := by
    simpa [runCallbacks] using hr.symm
  refine ⟨b, by simpa using hb, ?_, ?_, ?_⟩
  · rw [hm, hmm]
  · intro k v hkv
    simp [getKey_objAssign b k hnd, hkv]
  · intro k hk
    simp [getKey_objAssign b k hnd, hk]

/-- Evaluation of C2 on a concrete call with an override for key 0. -/
theorem C2_witness :
    ∃ b, (mkFactory exDefn).definition 0 = .ok b ∧
      ([[(0, 5)]] : List (Obj Nat Nat)).get? 0 = some (objAssign b [(0, 5)]) ∧
      (∀ k v, getKey ([(0, 5)] : Obj Nat Nat) k = some v →
        getKey (objAssign b [(0, 5)]) k = some v) ∧
      (∀ k, getKey ([(0, 5)] : Obj Nat Nat) k = none →
        getKey (objAssign b [(0, 5)]) k = getKey b k) :=
  C2_theorem (mkFactory exDefn) (mkFactory exDefn) [(0, 5)] [[(0, 5)]]
    rfl (by decide) (by rfl) 0 (by decide)

/-- Claim C3: registering pure transforms `T1 ... Tn` through `state`
appends them in order, and a successful build then yields, for each
produced model, `Tn (... (T1 (merged)))` where `merged` is the fresh
blueprint output with the overrides assigned — transforms run after the
override merge, in registration order, each on the previous output. -/
theorem C3_theorem (f0 : Factory K V) (ts : List (Obj K V → Obj K V))
    (o : Obj K V) (f2 : Factory K V) (ms : List (Obj K V))
    (h0 : f0.stateCallbacks = [])
    (hmk : (f0.stateMany ts).make o = (f2, .ok ms)) :
    (f0.stateMany ts).stateCallbacks = ts.map pureCb ∧
    ∀ i, i < ms.length → ∃ b, f0.definition i = .ok b ∧
      ms.get? i = some (ts.foldl (fun m t => t m) (objAssign b o)) := by
  obtain ⟨hdef, hinst, hcbs⟩ := stateMany_spec f0 ts
  rw [h0] at hcbs
  simp only [List.nil_append] at hcbs
  refine ⟨hcbs, ?_⟩
  obtain ⟨hl, hf2⟩ := make_ok_loop hmk
  obtain ⟨hlen, hidx⟩ := makeLoop_ok hl
  intro i hi
  rw [hlen] at hi
  obtain ⟨b, m, hb, hr, hm⟩ := hidx i hi
  rw [hcbs, runCallbacks_pure] at hr
  have hmm : m = ts.foldl (fun a t => t a) (objAssign b o) :=
    (Except.ok.inj hr).symm
  refine ⟨b, ?_, ?_⟩
  · rw [hdef] at hb
    simpa using hb
  · rw [hm, hmm]

/-- Evaluation of C3: two non-commuting transforms on key 1; the last
registered one wins. -/
theorem C3_witness :
    ((mkFactory exDefn).stateMany [exT1, exT2]).stateCallbacks =
      [exT1, exT2].map pureCb ∧
    ∀ i, i < ([[(0, 0), (1, 20)]] : List (Obj Nat Nat)).length →
      ∃ b, (mkFactory exDefn).definition i = .ok b ∧
        ([[(0, 0), (1, 20)]] : List (Obj Nat Nat)).get? i =
          some ([exT1, exT2].foldl (fun m t => t m) (objAssign b [])) :=
  C3_theorem (mkFactory exDefn) [exT1, exT2] [] (mkFactory exDefn)
    [[(0, 0), (1, 20)]] rfl rfl

/-- Claim C4: for `n ≥ 1`, when the blueprint and every registered
transform are total, `count(n)` succeeds and the following `make`
returns normally with exactly `n` models — the pending count captured
at the start of the call. -/
theorem C4_theorem (f : Factory K V) (n : Nat) (o : Obj K V)
    (hn : 1 ≤ n)
    (hd : ∀ i, ∃ b, f.definition i = .ok b)
    (hc : ∀ cb ∈ f.stateCallbacks, ∀ m, ∃ m2, cb m = .ok m2) :
    ∃ f2, (f.count (n : Int)).2 = .ok f2 ∧
      ∃ f3 ms, f2.make o = (f3, .ok ms) ∧ ms.length = n := by
  have hnot : ¬ ((n : Int) < 1) := by omega
  refine ⟨{ f with instances := (n : Int) }, ?_, ?_⟩
  · simp [Factory.count, hnot]
  · obtain ⟨ms, hms⟩ := makeLoop_total hd (runCallbacks_total hc) n 0
    refine ⟨_, ms, make_eq_of_loop_ok ?_, (makeLoop_ok hms).1⟩
    exact hms

/-- Evaluation of C4 at `n = 3` on the concrete blueprint. -/
theorem C4_witness :
    ∃ f2, ((mkFactory exDefn).count ((3 : Nat) : Int)).2 = .ok f2 ∧
      ∃ f3 ms, f2.make ([] : Obj Nat Nat) = (f3, .ok ms) ∧ ms.length = 3 :=
  C4_theorem (mkFactory exDefn) 3 [] (by decide)
    (fun _ => ⟨[(0, 0)], rfl⟩) (by simp [mkFactory])

/-- Claim C5: `makeOne` delegates to `make` from the very same state:
its post-state is `make`'s post-state and its result is `make`'s result
mapped through element-0 access — so with a pending count of N all N
models are built internally and all but the first are discarded. -/
theorem C5_theorem (f : Factory K V) (o : Obj K V) :
    f.makeOne o = ((f.make o).1, Except.map List.head? (f.make o).2) :=
  makeOne_eq f o

/-- Claim C6: `count(amount)` with an integer `amount < 1` throws
`Count must be greater than 0` and mutates nothing; with
`amount ≥ 1` it records `amount` as the next batch size, leaves the
transforms and blueprint alone and returns the builder itself. -/
theorem C6_theorem (f : Factory K V) (amount : Int) :
    (amount < 1 →
      f.count amount = (f, .error (.jsError ("Count must be greater than 0")))) ∧
    (1 ≤ amount →
      (f.count amount).1.instances = amount ∧
      (f.count amount).1.stateCallbacks = f.stateCallbacks ∧
      (f.count amount).1.definition = f.definition ∧
      (f.count amount).2 = .ok (f.count amount).1) := by
  constructor
  · intro h
    simp [Factory.count, h]
  · intro h
    have hnot : ¬ amount < 1 := by omega
    simp [Factory.count, hnot]

/-- Evaluation of C6 at `count(0)` (rejected, no mutation) and
`count(5)` (recorded). -/
theorem C6_witness :
    ((mkFactory exDefn).count 0 =
      (mkFactory exDefn, .error (.jsError ("Count must be greater than 0")))) ∧
    ((mkFactory exDefn).count 5).1.instances = 5 :=
  ⟨(C6_theorem (mkFactory exDefn) 0).1 (by decide),
   ((C6_theorem (mkFactory exDefn) 5).2 (by decide)).1⟩

/-- Claim C7: when the production loop throws (the blueprint or a state
transform raised), `make` re-raises a single error whose message embeds
the original failure's message after `Failed to make model: `, with no
partial batch; in particular a blueprint that throws on its first
invocation triggers this whenever the pending count is at least 1. -/
theorem C7_theorem (f : Factory K V) (o : Obj K V) :
    (∀ e, makeLoop f.definition f.stateCallbacks o 0 f.instances.toNat =
        .error e →
      f.make o =
        (f, .error (.jsError ("Failed to make model: " ++ e.messageOf)))) ∧
    (∀ e, f.definition 0 = .error e → 1 ≤ f.instances →
      f.make o =
        (f, .error (.jsError ("Failed to make model: " ++ e.messageOf)))) := by
  constructor
  · exact fun e h => make_eq_of_loop_error h
  · intro e he hi
    apply make_eq_of_loop_error
    obtain ⟨n2, hn2⟩ : ∃ n2, f.instances.toNat = n2 + 1 :=
      ⟨f.instances.toNat - 1, by omega⟩
    rw [hn2]
    simp [makeLoop, he]

/-- Evaluation of C7 on a blueprint that throws `boom`. -/
theorem C7_witness :
    (mkFactory exThrowDefn).make ([] : Obj Nat Nat) =
      (mkFactory exThrowDefn,
        .error (.jsError ("Failed to make model: boom"))) :=
  (C7_theorem (mkFactory exThrowDefn) []).2 (.jsError ("boom")) rfl (by decide)

/-- Claim C8: `create` and `createOne` unconditionally throw
`Must implement the DB layer to use Create.` for every builder state
and every argument, leaving the builder state untouched (no reset) —
and since the same error comes back whatever the blueprint is, the
blueprint is never invoked. -/
theorem C8_theorem (f : Factory K V) (o o2 : Obj K V) :
    f.create o =
      (f, .error (.jsError ("Must implement the DB layer to use Create."))) ∧
    f.createOne o2 =
      (f, .error (.jsError ("Must implement the DB layer to use Create."))) :=
  ⟨rfl, rfl⟩

/-- Claim C9 (implicit): in every state reachable through the public
API the pending count is at least 1, a successful `make` therefore
returns a non-empty array, and `makeOne`'s element-0 access on a
successful call always yields a model (never `undefined`). -/
theorem C9_theorem (f : Factory K V) (h : Reachable f) :
    1 ≤ f.instances ∧
    (∀ o f2 ms, f.make o = (f2, .ok ms) → ms ≠ []) ∧
    (∀ o f2 r, f.makeOne o = (f2, .ok r) → ∃ m, r = some m) := by
  have hinst := reachable_instances h
  refine ⟨hinst, ?_, ?_⟩
  · intro o f2 ms hmk
    obtain ⟨hl, _⟩ := make_ok_loop hmk
    have hlen := (makeLoop_ok hl).1
    intro hnil
    rw [hnil] at hlen
    simp only [List.length_nil] at hlen
    omega
  · intro o f2 r hmk
    rw [makeOne_eq] at hmk
    cases hm2 : (f.make o).2 with
    | error e =>
      rw [hm2] at hmk
      simp [Except.map] at hmk
    | ok ms =>
      rw [hm2] at hmk
      simp only [Except.map, Prod.mk.injEq] at hmk
      obtain ⟨h1, h2⟩ := hmk
      have hr : r = ms.head? := (Except.ok.inj h2).symm
      have hmk2 : f.make o = ((f.make o).1, .ok ms) := by rw [← hm2]
      obtain ⟨hl, _⟩ := make_ok_loop hmk2
      have hlen := (makeLoop_ok hl).1
      cases ms with
      | nil =>
        simp only [List.length_nil] at hlen
        omega
      | cons m rest => exact ⟨m, by simp [hr]⟩

/-- Evaluation of C9 on a freshly constructed builder. -/
theorem C9_witness :
    1 ≤ (mkFactory exDefn).instances ∧
    (∀ o f2 ms, (mkFactory exDefn).make o = (f2, .ok ms) → ms ≠ []) ∧
    (∀ o f2 r, (mkFactory exDefn).makeOne o = (f2, .ok r) →
      ∃ m, r = some m) :=
  C9_theorem (mkFactory exDefn) (Reachable.init exDefn)

/-- Claim C10 (implicit): the merge step of `make` never writes into the
caller's overrides object — it allocates the fresh blueprint output and
copies the override fields into that fresh object, so the overrides
reference dereferences to exactly the same object afterwards (and the
merged model is the shallow merge of blueprint output and overrides). -/
theorem C10_theorem (h : Heap K V) (b : Obj K V) (ovRef : Nat)
    (hv : ovRef < h.objs.length) :
    (mergeStep h b ovRef).1.readRef ovRef = h.readRef ovRef ∧
    (∀ ov, h.readRef ovRef = some ov →
      (mergeStep h b ovRef).1.readRef (mergeStep h b ovRef).2 =
        some (objAssign b ov)) := by
  have hne : ovRef ≠ (h.alloc b).2 := by
    show ovRef ≠ h.objs.length
    omega
  have hold : (h.alloc b).1.readRef ovRef = h.readRef ovRef :=
    readRef_alloc_old h b hv
  constructor
  · show ((h.alloc b).1.assignFrom (h.alloc b).2 ovRef).readRef ovRef =
      h.readRef ovRef
    unfold Heap.assignFrom
    cases hsrc : (h.alloc b).1.readRef ovRef with
    | none => exact hold
    | some so =>
      rw [readRef_foldWrite_ne so _ hne]
      exact hold
  · intro ov hov
    show ((h.alloc b).1.assignFrom (h.alloc b).2 ovRef).readRef
      (h.alloc b).2 = some (objAssign b ov)
    unfold Heap.assignFrom
    have hsrc : (h.alloc b).1.readRef ovRef = some ov := by rw [hold, hov]
    rw [hsrc]
    rw [readRef_foldWrite_self]
    rw [readRef_alloc_new]
    rfl

/-- Evaluation of C10 on a one-object heap. -/
theorem C10_witness :
    (mergeStep exHeap [(0, 0)] 0).1.readRef 0 = exHeap.readRef 0 :=
  (C10_theorem exHeap [(0, 0)] 0 (by decide)).1
